import Mathlib

/-!
Verification of the partition scanner and gap analyzer of `s3_sample.py`.

The embedding models:
* Python `datetime` values (always at midnight here) as day numbers
  (`Nat`, days since 0000-03-01 in the proleptic Gregorian calendar),
  so `timedelta(days = k)` addition is `+ k`;
* Python sets as deduplicated lists (`List.dedup`), with `sorted(list(s))`
  embedded as `List.insertionSort`, whose output (for the total orders used
  here) is the unique sorted enumeration, exactly as in the source;
* the paginated S3 listing as a list of page results, each page either the
  list of object keys of that page (a page with no Contents entry is the
  empty list) or a `ClientError`-style failure raised while iterating.
-/

namespace ViewS3

/-! ### Calendar arithmetic (embedding of datetime / timedelta) -/

/-- Gregorian leap-year test, as used by Python datetime. -/
def isLeap (y : ℕ) : Bool :=
  (y % 4 == 0 && y % 100 != 0) || y % 400 == 0

/-- Number of days in month `m` (1..12) of year `y`. -/
def daysInMonth (y m : ℕ) : ℕ :=
  if m = 2 then (if isLeap y then 29 else 28)
  else if m = 4 ∨ m = 6 ∨ m = 9 ∨ m = 11 then 30
  else 31

/-- Day number of the proleptic Gregorian date `y-m-d` counting from
0000-03-01 (shifted-epoch civil-calendar conversion; exact for `y ≥ 1`). -/
def dayNumOfYMD (y m d : ℕ) : ℕ :=
  let yy := if m ≤ 2 then y - 1 else y
  let mp := if m ≤ 2 then m + 9 else m - 3
  365 * yy + yy / 4 - yy / 100 + yy / 400 + (153 * mp + 2) / 5 + (d - 1)

/-- Inverse of `dayNumOfYMD`: the `(year, month, day)` of a day number. -/
def ymdOfDayNum (n : ℕ) : ℕ × ℕ × ℕ :=
  let era := n / 146097
  let doe := n % 146097
  let yoe := (doe - doe / 1460 + doe / 36524 - doe / 146096) / 365
  let y := yoe + era * 400
  let doy := doe - (365 * yoe + yoe / 4 - yoe / 100)
  let mp := (5 * doy + 2) / 153
  let d := doy - (153 * mp + 2) / 5 + 1
  let m := if mp < 10 then mp + 3 else mp - 9
  (if m ≤ 2 then y + 1 else y, m, d)

/-- Day number of the first day of the month containing day number `n`:
the embedding of `.replace(day=1)` on a datetime. -/
def monthFloor (n : ℕ) : ℕ :=
  let ymd := ymdOfDayNum n
  dayNumOfYMD ymd.1 ymd.2.1 1

/-! ### Parsing and formatting (strptime / strftime) -/

/-- Numeric value of a decimal digit character. -/
def digitVal (c : Char) : ℕ := c.toNat - 48

/-- Embedding of `datetime.strptime(s, "%Y-%m-%d")` restricted to the
canonical zero-padded shape `YYYY-MM-DD` (the only shape the scanner can
produce, by its regular expression): returns the day number when the text
is a valid calendar date (year 1..9999), and `none` where strptime raises
`ValueError`. -/
def parseDate (s : String) : Option ℕ :=
  match s.data with
  | [y1, y2, y3, y4, h1, m1, m2, h2, d1, d2] =>
    if y1.isDigit && y2.isDigit && y3.isDigit && y4.isDigit &&
       h1 == '-' && m1.isDigit && m2.isDigit &&
       h2 == '-' && d1.isDigit && d2.isDigit then
      let y := ((digitVal y1 * 10 + digitVal y2) * 10 + digitVal y3) * 10 + digitVal y4
      let m := digitVal m1 * 10 + digitVal m2
      let d := digitVal d1 * 10 + digitVal d2
      if 1 ≤ y ∧ 1 ≤ m ∧ m ≤ 12 ∧ 1 ≤ d ∧ d ≤ daysInMonth y m then
        some (dayNumOfYMD y m d)
      else none
    else none
  | _ => none

/-- Embedding of `datetime.strptime(s, "%Y-%m")` restricted to the canonical
shape `YYYY-MM`; strptime fills in day 1, so the result is the day number of
the first day of the month. -/
def parseMonth (s : String) : Option ℕ :=
  match s.data with
  | [y1, y2, y3, y4, h1, m1, m2] =>
    if y1.isDigit && y2.isDigit && y3.isDigit && y4.isDigit &&
       h1 == '-' && m1.isDigit && m2.isDigit then
      let y := ((digitVal y1 * 10 + digitVal y2) * 10 + digitVal y3) * 10 + digitVal y4
      let m := digitVal m1 * 10 + digitVal m2
      if 1 ≤ y ∧ 1 ≤ m ∧ m ≤ 12 then
        some (dayNumOfYMD y m 1)
      else none
    else none
  | _ => none

/-- Zero-pad a number to two decimal digits, as `%m` / `%d` do. -/
def pad2 (n : ℕ) : String :=
  if n < 10 then "0" ++ toString n else toString n

/-- Zero-pad a number to four decimal digits, as `%Y` does for the years
used here. -/
def pad4 (n : ℕ) : String :=
  if n < 10 then "000" ++ toString n
  else if n < 100 then "00" ++ toString n
  else if n < 1000 then "0" ++ toString n
  else toString n

/-- Embedding of `.strftime("%Y-%m-%d")` on the datetime with day number `n`. -/
def formatDate (n : ℕ) : String :=
  let ymd := ymdOfDayNum n
  pad4 ymd.1 ++ "-" ++ pad2 ymd.2.1 ++ "-" ++ pad2 ymd.2.2

/-- Embedding of `.strftime("%Y-%m")` on the datetime with day number `n`. -/
def formatMonth (n : ℕ) : String :=
  let ymd := ymdOfDayNum n
  pad4 ymd.1 ++ "-" ++ pad2 ymd.2.1

/-! ### Partition tokens and the key-classification patterns -/

/-- Partition kind: the first tuple component of the tokens built by
`list_partitions` (the Python strings "day" and "month"). -/
inductive PKind where
  | day : PKind
  | month : PKind
deriving DecidableEq, Repr

/-- A partition token, the pair `(type, date)` built by `list_partitions`. -/
abbrev Token := PKind × String

/-- Match exactly `n` decimal digits at the front of the character list,
returning them and the rest. -/
def takeDigits : ℕ → List Char → Option (List Char × List Char)
  | 0, cs => some ([], cs)
  | _ + 1, [] => none
  | n + 1, c :: cs =>
    if c.isDigit then
      match takeDigits n cs with
      | some (ds, rest) => some (c :: ds, rest)
      | none => none
    else none

/-- Match the literal characters `lit` at the front of the list, returning
the rest. -/
def dropLit : List Char → List Char → Option (List Char)
  | [], cs => some cs
  | _ :: _, [] => none
  | l :: ls, c :: cs => if c = l then dropLit ls cs else none

/-- Attempt the day pattern at the current position: the regular expression
`date=(\d\x7b4\x7d-\d\x7b2\x7d-\d\x7b2\x7d)` anchored here, returning the
captured group. -/
def matchDayAt (cs : List Char) : Option (List Char) :=
  match dropLit "date=".data cs with
  | none => none
  | some r0 =>
    match takeDigits 4 r0 with
    | none => none
    | some (y, r1) =>
      match dropLit ['-'] r1 with
      | none => none
      | some r2 =>
        match takeDigits 2 r2 with
        | none => none
        | some (m, r3) =>
          match dropLit ['-'] r3 with
          | none => none
          | some r4 =>
            match takeDigits 2 r4 with
            | none => none
            | some (d, _) => some (y ++ '-' :: m ++ '-' :: d)

/-- Attempt the month pattern at the current position: the regular
expression `yearmonth=(\d\x7b4\x7d-\d\x7b2\x7d)` anchored here, returning
the captured group. -/
def matchMonthAt (cs : List Char) : Option (List Char) :=
  match dropLit "yearmonth=".data cs with
  | none => none
  | some r0 =>
    match takeDigits 4 r0 with
    | none => none
    | some (y, r1) =>
      match dropLit ['-'] r1 with
      | none => none
      | some r2 =>
        match takeDigits 2 r2 with
        | none => none
        | some (m, _) => some (y ++ '-' :: m)

/-- Leftmost search for a fixed-shape pattern attempt `att`, as `re.search`
does for the two patterns of the source (which have no backtracking
alternatives). -/
def searchPat (att : List Char → Option (List Char)) : List Char → Option (List Char)
  | [] =>
    match att [] with
    | some cap => some cap
    | none => none
  | c :: cs =>
    match att (c :: cs) with
    | some cap => some cap
    | none => searchPat att cs

/-- Embedding of `day_pattern.search(key)`, returning the captured group. -/
def searchDay (key : String) : Option String :=
  (searchPat matchDayAt key.data).map String.mk

/-- Embedding of `month_pattern.search(key)`, returning the captured group. -/
def searchMonth (key : String) : Option String :=
  (searchPat matchMonthAt key.data).map String.mk

/-- Embedding of the per-key classification of `list_partitions` (lines
38-43 of the source): day pattern first, then month pattern, else no token. -/
def classifyKey (key : String) : Option Token :=
  let day_match := searchDay key
  let month_match := searchMonth key
  match day_match with
  | some v => some (PKind.day, v)
  | none =>
    match month_match with
    | some v => some (PKind.month, v)
    | none => none

/-! ### The partition scanner `list_partitions` -/

/-- Failure of the listing capability: the `botocore` `ClientError` raised
while paginating, carrying its message text. -/
inductive AccessError where
  | clientError : String → AccessError
deriving DecidableEq, Repr

/-- Text displayed by `st.error` when the listing fails. -/
def errorText : AccessError → String
  | .clientError msg => "Error accessing S3: " ++ msg

/-- Ordering on partition kinds induced by the Python strings: the string
"day" sorts before "month". -/
def kindIdx : PKind → ℕ
  | .day => 0
  | .month => 1

/-- Lexicographic comparison of character lists by code point, the
comparison Python uses on `str`. -/
def charsLt : List Char → List Char → Bool
  | [], [] => false
  | [], _ :: _ => true
  | _ :: _, [] => false
  | a :: as, b :: bs =>
    if a < b then true
    else if b < a then false
    else charsLt as bs

/-- Python tuple ordering on tokens: kind first (as the strings "day" and
"month" compare), then the value string, lexicographically. -/
def tokenLE (a b : Token) : Prop :=
  (kindIdx a.1 < kindIdx b.1 ∨
    (a.1 = b.1 ∧ (charsLt a.2.data b.2.data = true ∨ a.2 = b.2)))

instance tokenLE.decRel : DecidableRel tokenLE := fun a b =>
  inferInstanceAs (Decidable (kindIdx a.1 < kindIdx b.1 ∨
    (a.1 = b.1 ∧ (charsLt a.2.data b.2.data = true ∨ a.2 = b.2))))

/-- One step of the scanning loop body: classify `key` and add the
resulting token, if any, to the set `dates` (`set.add`; sets are embedded
as duplicate-free lists, so an already-present token is not re-added). -/
def addKey (dates : List Token) (key : String) : List Token :=
  match classifyKey key with
  | some t => if t ∈ dates then dates else dates ++ [t]
  | none => dates

/-- The pagination loop of `list_partitions`: walk the page results,
accumulating the token set; a `ClientError` raised by the iteration is
caught, the error text is displayed, and `None` is returned (discarding the
tokens gathered so far); when all pages succeed the token set is returned
as `sorted(list(dates))`.  The second component models the texts shown by
`st.error`. -/
def scanPages : List (Except AccessError (List String)) → List Token →
    Option (List Token) × List String
  | [], dates => (some (dates.insertionSort tokenLE), [])
  | .error e :: _, _ => (none, [errorText e])
  | .ok keys :: rest, dates => scanPages rest (keys.foldl addKey dates)

/-- Embedding of `list_partitions`: the paginated scan over all object keys
under the prefix, starting from the empty token set. -/
def list_partitions (pages : List (Except AccessError (List String))) :
    Option (List Token) × List String :=
  scanPages pages []

/-! ### The gap analyzer `analyze_partitions` -/

/-- Embedding of the result dictionary of `analyze_partitions`; fields that
a branch does not assign stay `none`. -/
structure AnalysisResult where
  partition_type : String
  total_partitions : ℕ
  min_date : Option String
  max_date : Option String
  missing_dates : Option (List String)
deriving DecidableEq, Repr

/-- Embedding of the list comprehension `[strptime(d, fmt) for d in l]`:
parse every value, propagating the `ValueError` (as `none`) that strptime
raises on the first unparsable value. -/
def parseList (f : String → Option ℕ) : List String → Option (List ℕ)
  | [] => some []
  | s :: ss =>
    match f s with
    | none => none
    | some n =>
      match parseList f ss with
      | none => none
      | some ns => some (n :: ns)

/-- The day branch of `analyze_partitions` (lines 107-117), applied to the
parsed day objects `d :: ds` (day numbers) of a non-empty day-partition
list.  `all_days` is the set comprehension over `range((end-start).days + 1)`;
`missing_days = sorted(list(all_days - existing_days))`. -/
def dayBranch (total : ℕ) (d : ℕ) (ds : List ℕ) : AnalysisResult :=
  let start_date := ds.foldl Nat.min d
  let end_date := ds.foldl Nat.max d
  let all_days := (((List.range (end_date - start_date + 1)).map
    (fun x => start_date + x))).dedup
  let existing_days := (d :: ds).dedup
  let missing_days := ((all_days.filter (fun x => x ∉ existing_days))).insertionSort (· ≤ ·)
  { partition_type := "day"
    total_partitions := total
    min_date := some (formatDate start_date)
    max_date := some (formatDate end_date)
    missing_dates := some (missing_days.map formatDate) }

/-- The month branch of `analyze_partitions` (lines 119-129), applied to
the parsed month objects `m0 :: ms` (day numbers of month-first days).
`all_months` is the set comprehension
`set((start_month + timedelta(days=32*x)).replace(day=1) for x in range(k))`
with `k = (end.year - start.year) * 12 + end.month - start.month + 1`;
`missing_months = sorted(list(all_months - existing_months))`. -/
def monthBranch (total : ℕ) (m0 : ℕ) (ms : List ℕ) : AnalysisResult :=
  let start_month := ms.foldl Nat.min m0
  let end_month := ms.foldl Nat.max m0
  let s := ymdOfDayNum start_month
  let e := ymdOfDayNum end_month
  let k := (((e.1 : ℤ) - (s.1 : ℤ)) * 12 + (e.2.1 : ℤ) - (s.2.1 : ℤ) + 1).toNat
  let all_months := (((List.range k).map
    (fun x => monthFloor (start_month + 32 * x)))).dedup
  let existing_months := (m0 :: ms).dedup
  let missing_months := ((all_months.filter (fun x => x ∉ existing_months))).insertionSort (· ≤ ·)
  { partition_type := "month"
    total_partitions := total
    min_date := some (formatMonth start_month)
    max_date := some (formatMonth end_month)
    missing_dates := some (missing_months.map formatMonth) }

/-- Embedding of `analyze_partitions` (lines 98-131).  A `ValueError`
raised by strptime on an unparsable value surfaces as `none`; the
`some []` cases of the parsed lists are unreachable (parsing a non-empty
list yields a non-empty list) and also map to `none`. -/
def analyze_partitions (partitions : List Token) : Option AnalysisResult :=
  let day_partitions := (partitions.filter (fun t => t.1 == PKind.day)).map Prod.snd
  let month_partitions := (partitions.filter (fun t => t.1 == PKind.month)).map Prod.snd
  match day_partitions with
  | d :: ds =>
    match parseList parseDate (d :: ds) with
    | some (x :: xs) => some (dayBranch partitions.length x xs)
    | _ => none
  | [] =>
    match month_partitions with
    | m :: ms =>
      match parseList parseMonth (m :: ms) with
      | some (x :: xs) => some (monthBranch partitions.length x xs)
      | _ => none
    | [] =>
      some { partition_type := "none"
             total_partitions := partitions.length
             min_date := none
             max_date := none
             missing_dates := none }

/-- Embedding of the analysis step of `main` (lines 149-152): run the scan;
`if partitions:` stores an analysis only when the scan succeeded and found
a non-empty token list, so a failed scan stores no `AnalysisResult`. -/
def mainAnalysis (pages : List (Except AccessError (List String))) :
    Option AnalysisResult :=
  match (list_partitions pages).1 with
  | none => none
  | some parts => if parts.isEmpty then none else analyze_partitions parts

/-! ### Spec-side model of exact calendar-month stepping -/

/-- Index of the calendar month containing day number `n`, counting months
from year 0: `year * 12 + (month - 1)`. -/
def monthIdx (n : ℕ) : ℕ :=
  let ymd := ymdOfDayNum n
  ymd.1 * 12 + (ymd.2.1 - 1)

/-- Year-month string of a month index, formatted `YYYY-MM`. -/
def formatMonthIdx (i : ℕ) : String :=
  pad4 (i / 12) ++ "-" ++ pad2 (i % 12 + 1)

/-- Modelled from the spec (section 4.2, month mode): construct the full
inclusive set of year-months from the minimum to the maximum observed
month, advancing exactly one calendar month per step (adding one to the
month index wraps December into January of the incremented year), and
return the observed-month complement ascending, formatted `YYYY-MM`.
This is the exact stepping the spec demands in place of the fixed 32-day
stepping of the source. -/
def specMonthMissing (ts : List Token) : List String :=
  match parseList parseMonth ((ts.filter (fun t => t.1 == PKind.month)).map Prod.snd) with
  | some (x :: xs) =>
    let idxs := (x :: xs).map monthIdx
    let lo := (xs.map monthIdx).foldl Nat.min (monthIdx x)
    let hi := (xs.map monthIdx).foldl Nat.max (monthIdx x)
    (((List.range (hi + 1 - lo)).map (fun k => lo + k)).filter
      (fun i => i ∉ idxs)).map formatMonthIdx
  | _ => []

/-! ### Order properties of the token comparison -/

theorem charsLt_trans : ∀ (a b c : List Char),
    charsLt a b = true → charsLt b c = true → charsLt a c = true
  | [], [], _ :: _, _, _ => rfl
  | [], _ :: _, _ :: _, _, _ => rfl
  | a :: as, b :: bs, c :: cs, h1, h2 => by
    rcases lt_trichotomy a b with hab | hEq | hba
    · rcases lt_trichotomy b c with hbc | hEq2 | hcb
      · simp [charsLt, lt_trans hab hbc]
      · subst hEq2
        simp [charsLt, hab]
      · exact absurd h2 (by simp [charsLt, lt_asymm hcb, hcb])
    · subst hEq
      have h1' : charsLt as bs = true := by simpa [charsLt] using h1
      rcases lt_trichotomy a c with hac | hEq2 | hca
      · simp [charsLt, hac]
      · subst hEq2
        have h2' : charsLt bs cs = true := by simpa [charsLt] using h2
        simpa [charsLt] using charsLt_trans as bs cs h1' h2'
      · exact absurd h2 (by simp [charsLt, lt_asymm hca, hca])
    · exact absurd h1 (by simp [charsLt, lt_asymm hba, hba])

theorem charsLt_total : ∀ a b : List Char,
    charsLt a b = true ∨ a = b ∨ charsLt b a = true
  | [], [] => Or.inr (Or.inl rfl)
  | [], _ :: _ => Or.inl rfl
  | _ :: _, [] => Or.inr (Or.inr rfl)
  | a :: as, b :: bs => by
    rcases lt_trichotomy a b with hab | hab | hab
    · exact Or.inl (by simp [charsLt, hab])
    · subst hab
      rcases charsLt_total as bs with h | h | h
      · exact Or.inl (by simp [charsLt, h])
      · exact Or.inr (Or.inl (by rw [h]))
      · exact Or.inr (Or.inr (by simp [charsLt, h]))
    · exact Or.inr (Or.inr (by simp [charsLt, hab]))

instance tokenLE.isTrans : IsTrans Token tokenLE where
  trans a b c hab hbc := by
    rcases hab with h1 | ⟨hk1, hv1⟩
    · rcases hbc with h2 | ⟨hk2, _⟩
      · exact Or.inl (lt_trans h1 h2)
      · exact Or.inl (hk2 ▸ h1)
    · rcases hbc with h2 | ⟨hk2, hv2⟩
      · exact Or.inl (hk1 ▸ h2)
      · refine Or.inr ⟨hk1.trans hk2, ?_⟩
        rcases hv1 with hv1 | hv1
        · rcases hv2 with hv2 | hv2
          · exact Or.inl (charsLt_trans _ _ _ hv1 hv2)
          · exact Or.inl (hv2 ▸ hv1)
        · rcases hv2 with hv2 | hv2
          · exact Or.inl (hv1 ▸ hv2)
          · exact Or.inr (hv1.trans hv2)

instance tokenLE.isTotal : IsTotal Token tokenLE where
  total a b := by
    rcases Nat.lt_trichotomy (kindIdx a.1) (kindIdx b.1) with hk | hk | hk
    · exact Or.inl (Or.inl hk)
    · have hks : a.1 = b.1 := by
        cases ha : a.1 <;> cases hb : b.1 <;> simp_all [kindIdx]
      rcases charsLt_total a.2.data b.2.data with h | h | h
      · exact Or.inl (Or.inr ⟨hks, Or.inl h⟩)
      · have : a.2 = b.2 := String.toList_inj.mp h
        exact Or.inl (Or.inr ⟨hks, Or.inr this⟩)
      · exact Or.inr (Or.inr ⟨hks.symm, Or.inl h⟩)
    · exact Or.inr (Or.inl hk)

/-! ### Facts about the fold-based minimum and maximum (Python min / max) -/

theorem foldl_min_le_init : ∀ (l : List ℕ) (a : ℕ), l.foldl Nat.min a ≤ a
  | [], _ => le_refl _
  | b :: l, a => le_trans (foldl_min_le_init l (Nat.min a b)) (Nat.min_le_left a b)

theorem foldl_min_le_mem : ∀ (l : List ℕ) (a x : ℕ), x ∈ l → l.foldl Nat.min a ≤ x
  | b :: l, a, x, h => by
    rcases List.mem_cons.mp h with rfl | h
    · exact le_trans (foldl_min_le_init l (Nat.min a x)) (Nat.min_le_right a x)
    · exact foldl_min_le_mem l (Nat.min a b) x h

theorem foldl_min_mem : ∀ (l : List ℕ) (a : ℕ), l.foldl Nat.min a ∈ a :: l
  | [], a => List.mem_cons_self a []
  | b :: l, a => by
    show l.foldl Nat.min (Nat.min a b) ∈ a :: b :: l
    rcases List.mem_cons.mp (foldl_min_mem l (Nat.min a b)) with h | h
    · rw [h]
      rcases Nat.le_total a b with hab | hab
      · have hm : Nat.min a b = a := Nat.min_eq_left hab
        rw [hm]
        exact List.mem_cons_self a _
      · have hm : Nat.min a b = b := Nat.min_eq_right hab
        rw [hm]
        exact List.mem_cons_of_mem a (List.mem_cons_self b l)
    · exact List.mem_cons_of_mem a (List.mem_cons_of_mem b h)

theorem le_foldl_max_init : ∀ (l : List ℕ) (a : ℕ), a ≤ l.foldl Nat.max a
  | [], _ => le_refl _
  | b :: l, a => le_trans (Nat.le_max_left a b) (le_foldl_max_init l (Nat.max a b))

theorem le_foldl_max_mem : ∀ (l : List ℕ) (a x : ℕ), x ∈ l → x ≤ l.foldl Nat.max a
  | b :: l, a, x, h => by
    rcases List.mem_cons.mp h with rfl | h
    · exact le_trans (Nat.le_max_right a x) (le_foldl_max_init l (Nat.max a x))
    · exact le_foldl_max_mem l (Nat.max a b) x h

theorem foldl_max_mem : ∀ (l : List ℕ) (a : ℕ), l.foldl Nat.max a ∈ a :: l
  | [], a => List.mem_cons_self a []
  | b :: l, a => by
    show l.foldl Nat.max (Nat.max a b) ∈ a :: b :: l
    rcases List.mem_cons.mp (foldl_max_mem l (Nat.max a b)) with h | h
    · rw [h]
      rcases Nat.le_total a b with hab | hab
      · have hm : Nat.max a b = b := Nat.max_eq_right hab
        rw [hm]
        exact List.mem_cons_of_mem a (List.mem_cons_self b l)
      · have hm : Nat.max a b = a := Nat.max_eq_left hab
        rw [hm]
        exact List.mem_cons_self a _
    · exact List.mem_cons_of_mem a (List.mem_cons_of_mem b h)

theorem foldl_min_le_foldl_max (l : List ℕ) (a : ℕ) :
    l.foldl Nat.min a ≤ l.foldl Nat.max a :=
  le_trans (foldl_min_le_init l a) (le_foldl_max_init l a)

/-! ### Invariants of the scanning loop -/

/-- The object keys delivered by the successful pages (the keys the loop
body of `list_partitions` actually reaches; pages after a failure are never
requested). -/
def keysOf : List (Except AccessError (List String)) → List String
  | [] => []
  | .ok ks :: rest => ks ++ keysOf rest
  | .error _ :: _ => []

theorem addKey_nodup {dates : List Token} {key : String} (h : dates.Nodup) :
    (addKey dates key).Nodup := by
  unfold addKey
  match classifyKey key with
  | some t =>
    simp only
    split
    · exact h
    · rename_i hmem
      simpa using List.Nodup.append h (List.nodup_singleton t)
        (by simpa using hmem)
  | none => exact h

theorem mem_addKey {dates : List Token} {key : String} {t : Token} :
    t ∈ addKey dates key ↔ t ∈ dates ∨ classifyKey key = some t := by
  unfold addKey
  match hc : classifyKey key with
  | some u =>
    simp only
    split
    · rename_i hmem
      constructor
      · exact fun h => Or.inl h
      · rintro (h | h)
        · exact h
        · rwa [(Option.some_inj.mp h : u = t)] at hmem
    · simp only [List.mem_append, List.mem_singleton]
      constructor
      · rintro (h | rfl)
        · exact Or.inl h
        · exact Or.inr rfl
      · rintro (h | h)
        · exact Or.inl h
        · exact Or.inr (Option.some_inj.mp h).symm
  | none => simp

theorem foldl_addKey_nodup : ∀ (keys : List String) {dates : List Token},
    dates.Nodup → (keys.foldl addKey dates).Nodup
  | [], _, h => h
  | _ :: ks, _, h => foldl_addKey_nodup ks (addKey_nodup h)

theorem mem_foldl_addKey : ∀ (keys : List String) (dates : List Token) (t : Token),
    t ∈ keys.foldl addKey dates ↔
      t ∈ dates ∨ ∃ k ∈ keys, classifyKey k = some t
  | [], dates, t => by simp
  | key :: ks, dates, t => by
    rw [List.foldl_cons, mem_foldl_addKey ks (addKey dates key) t]
    rw [mem_addKey]
    constructor
    · rintro ((h | h) | ⟨k, hk, h⟩)
      · exact Or.inl h
      · exact Or.inr ⟨key, List.mem_cons_self key ks, h⟩
      · exact Or.inr ⟨k, List.mem_cons_of_mem key hk, h⟩
    · rintro (h | ⟨k, hk, h⟩)
      · exact Or.inl (Or.inl h)
      · rcases List.mem_cons.mp hk with rfl | hk
        · exact Or.inl (Or.inr h)
        · exact Or.inr ⟨k, hk, h⟩

/-- When the scan completes successfully, its output is the sorted
enumeration of a duplicate-free token set holding exactly the
classifications of the scanned keys. -/
theorem scanPages_some : ∀ (pages : List (Except AccessError (List String)))
    (dates ts : List Token) (msgs : List String),
    dates.Nodup → scanPages pages dates = (some ts, msgs) →
    ts.Nodup ∧ ts.Sorted tokenLE ∧
      ∀ t, t ∈ ts ↔ (t ∈ dates ∨ ∃ k ∈ keysOf pages, classifyKey k = some t)
  | [], dates, ts, msgs, hnd, heq => by
    have hts : dates.insertionSort tokenLE = ts := by
      simpa [scanPages] using congrArg Prod.fst heq
    subst hts
    refine ⟨((List.perm_insertionSort tokenLE dates).nodup_iff).mpr hnd,
      List.sorted_insertionSort tokenLE dates, ?_⟩
    intro t
    simp [List.mem_insertionSort, keysOf]
  | .error e :: rest, dates, ts, msgs, hnd, heq => by
    exact absurd (congrArg Prod.fst heq) (by simp [scanPages])
  | .ok keys :: rest, dates, ts, msgs, hnd, heq => by
    have hrec := scanPages_some rest (keys.foldl addKey dates) ts msgs
      (foldl_addKey_nodup keys hnd) (by simpa [scanPages] using heq)
    refine ⟨hrec.1, hrec.2.1, ?_⟩
    intro t
    rw [hrec.2.2 t, mem_foldl_addKey]
    simp only [keysOf, List.mem_append]
    constructor
    · rintro ((h | ⟨k, hk, h⟩) | ⟨k, hk, h⟩)
      · exact Or.inl h
      · exact Or.inr ⟨k, Or.inl hk, h⟩
      · exact Or.inr ⟨k, Or.inr hk, h⟩
    · rintro (h | ⟨k, hk | hk, h⟩)
      · exact Or.inl (Or.inl h)
      · exact Or.inl (Or.inr ⟨k, hk, h⟩)
      · exact Or.inr ⟨k, hk, h⟩

/-- A failing page aborts the scan: the pages before it contribute nothing,
the error text is displayed, and no token list is returned. -/
theorem scanPages_error : ∀ (pre : List (Except AccessError (List String)))
    (e : AccessError) (post : List (Except AccessError (List String)))
    (dates : List Token),
    (∀ p ∈ pre, ∀ er, p ≠ Except.error er) →
    scanPages (pre ++ Except.error e :: post) dates = (none, [errorText e])
  | [], e, post, dates, _ => by simp [scanPages]
  | .error e0 :: pre, e, post, dates, hok => by
    exact absurd rfl (hok _ (List.mem_cons_self _ _) e0)
  | .ok keys :: pre, e, post, dates, hok => by
    rw [List.cons_append]
    show scanPages (pre ++ Except.error e :: post) (keys.foldl addKey dates) =
      (none, [errorText e])
    exact scanPages_error pre e post _
      (fun p hp er => hok p (List.mem_cons_of_mem _ hp) er)

/-- Replacing a page by one whose keys fold to the same token set leaves
the whole scan unchanged. -/
theorem scanPages_page_fold_eq (post : List (Except AccessError (List String)))
    (ka kb : List String)
    (hfold : ∀ dates : List Token, ka.foldl addKey dates = kb.foldl addKey dates) :
    ∀ (pre : List (Except AccessError (List String))) (dates : List Token),
      scanPages (pre ++ Except.ok ka :: post) dates =
      scanPages (pre ++ Except.ok kb :: post) dates
  | [], dates => by
    show scanPages post (ka.foldl addKey dates) =
      scanPages post (kb.foldl addKey dates)
    rw [hfold]
  | .error e :: pre, dates => by
    rw [List.cons_append, List.cons_append]
    rfl
  | .ok ks :: pre, dates => by
    rw [List.cons_append, List.cons_append]
    show scanPages (pre ++ Except.ok ka :: post) (ks.foldl addKey dates) =
      scanPages (pre ++ Except.ok kb :: post) (ks.foldl addKey dates)
    exact scanPages_page_fold_eq post ka kb hfold pre _

/-! ### Facts about list parsing -/

theorem parseList_isSome (f : String → Option ℕ) :
    ∀ (l : List String), (∀ s ∈ l, (f s).isSome) → (parseList f l).isSome
  | [], _ => rfl
  | s :: ss, h => by
    have hs : (f s).isSome := h s (List.mem_cons_self s ss)
    rcases Option.isSome_iff_exists.mp hs with ⟨n, hn⟩
    have hss := parseList_isSome f ss (fun u hu => h u (List.mem_cons_of_mem s hu))
    rcases Option.isSome_iff_exists.mp hss with ⟨ns, hns⟩
    simp [parseList, hn, hns]

theorem parseList_cons_shape (f : String → Option ℕ) (s : String)
    (ss : List String) (ys : List ℕ) (h : parseList f (s :: ss) = some ys) :
    ∃ n ns, ys = n :: ns := by
  unfold parseList at h
  rcases hf : f s with _ | n
  · rw [hf] at h
    exact absurd h (by simp)
  · rw [hf] at h
    rcases hp : parseList f ss with _ | ns
    · rw [hp] at h
      exact absurd h (by simp)
    · rw [hp] at h
      exact ⟨n, ns, (Option.some_inj.mp h).symm⟩

/-! ### Characterizations of the analyzer branches -/

theorem analyze_eq_day (ts : List Token) (d : String) (ds : List String)
    (h : (ts.filter (fun t => t.1 == PKind.day)).map Prod.snd = d :: ds) :
    analyze_partitions ts =
      match parseList parseDate (d :: ds) with
      | some (x :: xs) => some (dayBranch ts.length x xs)
      | _ => none := by
  unfold analyze_partitions
  rw [h]

theorem analyze_eq_month (ts : List Token) (m : String) (ms : List String)
    (hd : (ts.filter (fun t => t.1 == PKind.day)).map Prod.snd = [])
    (hm : (ts.filter (fun t => t.1 == PKind.month)).map Prod.snd = m :: ms) :
    analyze_partitions ts =
      match parseList parseMonth (m :: ms) with
      | some (x :: xs) => some (monthBranch ts.length x xs)
      | _ => none := by
  unfold analyze_partitions
  rw [hd, hm]

theorem analyze_eq_none (ts : List Token)
    (hd : (ts.filter (fun t => t.1 == PKind.day)).map Prod.snd = [])
    (hm : (ts.filter (fun t => t.1 == PKind.month)).map Prod.snd = []) :
    analyze_partitions ts =
      some { partition_type := "none", total_partitions := ts.length,
             min_date := none, max_date := none, missing_dates := none } := by
  unfold analyze_partitions
  rw [hd, hm]

/-- The missing-dates list computed by the day branch is exactly the
ascending enumeration of the dates strictly inside the observed range that
were not observed. -/
theorem dayBranch_missing_spec (total x : ℕ) (xs : List ℕ) :
    ∃ mds : List ℕ,
      (dayBranch total x xs).missing_dates = some (mds.map formatDate) ∧
      mds.Pairwise (· < ·) ∧
      ∀ v, v ∈ mds ↔
        (xs.foldl Nat.min x ≤ v ∧ v ≤ xs.foldl Nat.max x ∧ v ∉ x :: xs) := by
  refine ⟨(((List.range (xs.foldl Nat.max x - xs.foldl Nat.min x + 1)).map
      (fun i => xs.foldl Nat.min x + i)).dedup.filter
      (fun v => v ∉ (x :: xs).dedup)).insertionSort (· ≤ ·), rfl, ?_, ?_⟩
  · have hnd : ((((List.range (xs.foldl Nat.max x - xs.foldl Nat.min x + 1)).map
        (fun i => xs.foldl Nat.min x + i)).dedup.filter
        (fun v => v ∉ (x :: xs).dedup)).insertionSort (· ≤ ·)).Nodup :=
      ((List.perm_insertionSort _ _).nodup_iff).mpr
        ((List.nodup_dedup _).filter _)
    have hsorted := List.sorted_insertionSort (α := ℕ) (· ≤ ·)
      (((List.range (xs.foldl Nat.max x - xs.foldl Nat.min x + 1)).map
        (fun i => xs.foldl Nat.min x + i)).dedup.filter
        (fun v => v ∉ (x :: xs).dedup))
    exact hsorted.imp₂ (fun a b hab hne => lt_of_le_of_ne hab hne) hnd
  · intro v
    rw [List.mem_insertionSort, List.mem_filter]
    simp only [List.mem_dedup, List.mem_map, List.mem_range, decide_not,
      Bool.not_eq_eq_eq_not, Bool.not_true, decide_eq_false_iff_not]
    have hle := foldl_min_le_foldl_max xs x
    constructor
    · rintro ⟨⟨i, hi, rfl⟩, hnotin⟩
      exact ⟨Nat.le_add_right _ _, by omega, hnotin⟩
    · rintro ⟨h1, h2, h3⟩
      exact ⟨⟨v - xs.foldl Nat.min x, by omega, by omega⟩, h3⟩

/-! ### The claims -/

/-- The month tokens on which the 32-day stepping of the source goes wrong:
the observed months 2023-01 and 2024-10. -/
def c1Tokens : List Token :=
  [(PKind.month, "2023-01"), (PKind.month, "2024-10")]

/-- The missing list the source computes on `c1Tokens`. -/
def c1CodeMissing : List String :=
  ["2023-02", "2023-03", "2023-04", "2023-05", "2023-06", "2023-07",
   "2023-08", "2023-09", "2023-10", "2023-11", "2023-12", "2024-01",
   "2024-02", "2024-03", "2024-04", "2024-05", "2024-06", "2024-07",
   "2024-08", "2024-11"]

/-- The missing list exact calendar-month stepping yields on `c1Tokens`. -/
def c1SpecMissing : List String :=
  ["2023-02", "2023-03", "2023-04", "2023-05", "2023-06", "2023-07",
   "2023-08", "2023-09", "2023-10", "2023-11", "2023-12", "2024-01",
   "2024-02", "2024-03", "2024-04", "2024-05", "2024-06", "2024-07",
   "2024-08", "2024-09"]

/-- C1: the source does NOT construct the full inclusive month range by
exact one-month steps: on observed months 2023-01 and 2024-10 its 32-day
stepping skips September 2024 (a genuine gap, absent from the reported
missing list) and reports November 2024, which lies beyond the maximum
observed month; exact calendar-month stepping, modelled from the spec,
reports September and not November.  This exhibits the month-stepping
defect the spec flags in the source. -/
theorem c1_month_stepping_defect :
    analyze_partitions c1Tokens =
      some { partition_type := "month", total_partitions := 2,
             min_date := some "2023-01", max_date := some "2024-10",
             missing_dates := some c1CodeMissing } ∧
    specMonthMissing c1Tokens = c1SpecMissing ∧
    "2024-09" ∉ c1CodeMissing ∧ "2024-11" ∈ c1CodeMissing ∧
    "2024-09" ∈ c1SpecMissing ∧ "2024-11" ∉ c1SpecMissing := by
  refine ⟨by decide, by decide, by decide, by decide, by decide, by decide⟩

/-- C2: a failure of the listing capability at any page makes the scan
return no token list at all (the tokens of the pages already consumed are
discarded), display the failure cause, and `main` stores no
`AnalysisResult` for that run. -/
theorem c2_access_failure (pre : List (Except AccessError (List String)))
    (e : AccessError) (post : List (Except AccessError (List String)))
    (hok : ∀ p ∈ pre, ∀ er, p ≠ Except.error er) :
    list_partitions (pre ++ Except.error e :: post) = (none, [errorText e]) ∧
    mainAnalysis (pre ++ Except.error e :: post) = none := by
  have h : list_partitions (pre ++ Except.error e :: post) =
      (none, [errorText e]) := scanPages_error pre e post [] hok
  refine ⟨h, ?_⟩
  unfold mainAnalysis
  rw [h]

/-- Witness for C2 at a concrete failing listing. -/
theorem c2_access_failure_witness :
    list_partitions [Except.ok ["x/date=2024-01-01/a.csv"],
        Except.error (AccessError.clientError "AccessDenied")] =
      (none, ["Error accessing S3: AccessDenied"]) ∧
    mainAnalysis [Except.ok ["x/date=2024-01-01/a.csv"],
        Except.error (AccessError.clientError "AccessDenied")] = none :=
  c2_access_failure [Except.ok ["x/date=2024-01-01/a.csv"]]
    (AccessError.clientError "AccessDenied") []
    (by
      intro p hp er
      rw [List.mem_singleton] at hp
      subst hp
      simp)

/-- C3: in day mode the analyzer reports the minimum and maximum of the
parsed dates and the missing list enumerates, ascending, exactly the
unobserved dates of the full inclusive range, formatted `YYYY-MM-DD`; on
the concrete examples of the spec, day tokens 2024-01-01 and 2024-01-05
give missing 2024-01-02, 2024-01-03, 2024-01-04 with two total partitions,
and a single day token gives equal endpoints and empty missing. -/
theorem c3_day_mode :
    (∀ (ts : List Token) (x : ℕ) (xs : List ℕ),
      ts ≠ [] →
      (∀ t ∈ ts, t.1 = PKind.day) →
      parseList parseDate (ts.map Prod.snd) = some (x :: xs) →
      ∃ (r : AnalysisResult) (mn mx : ℕ) (mds : List ℕ),
        analyze_partitions ts = some r ∧
        r.partition_type = "day" ∧
        r.total_partitions = ts.length ∧
        mn ∈ x :: xs ∧ (∀ v ∈ x :: xs, mn ≤ v) ∧
        mx ∈ x :: xs ∧ (∀ v ∈ x :: xs, v ≤ mx) ∧
        r.min_date = some (formatDate mn) ∧
        r.max_date = some (formatDate mx) ∧
        r.missing_dates = some (mds.map formatDate) ∧
        mds.Pairwise (· < ·) ∧
        (∀ v, v ∈ mds ↔ (mn ≤ v ∧ v ≤ mx ∧ v ∉ x :: xs))) ∧
    analyze_partitions [(PKind.day, "2024-01-01"), (PKind.day, "2024-01-05")] =
      some { partition_type := "day", total_partitions := 2,
             min_date := some "2024-01-01", max_date := some "2024-01-05",
             missing_dates := some ["2024-01-02", "2024-01-03", "2024-01-04"] } ∧
    analyze_partitions [(PKind.day, "2024-03-15")] =
      some { partition_type := "day", total_partitions := 1,
             min_date := some "2024-03-15", max_date := some "2024-03-15",
             missing_dates := some [] } := by
  refine ⟨?_, by decide, by decide⟩
  intro ts x xs hne hday hparse
  obtain ⟨t0, tr, rfl⟩ := List.exists_cons_of_ne_nil hne
  have hfil : (t0 :: tr).filter (fun t => t.1 == PKind.day) = t0 :: tr :=
    List.filter_eq_self.mpr (fun t ht => by simp [hday t ht])
  have hmap : ((t0 :: tr).filter (fun t => t.1 == PKind.day)).map Prod.snd =
      t0.2 :: tr.map Prod.snd := by
    rw [hfil]
    rfl
  have hparse' : parseList parseDate (t0.2 :: tr.map Prod.snd) = some (x :: xs) := by
    simpa using hparse
  have heq : analyze_partitions (t0 :: tr) =
      some (dayBranch (t0 :: tr).length x xs) := by
    rw [analyze_eq_day (t0 :: tr) t0.2 (tr.map Prod.snd) hmap, hparse']
  obtain ⟨mds, hmds, hpw, hmem⟩ :=
    dayBranch_missing_spec (t0 :: tr).length x xs
  refine ⟨dayBranch (t0 :: tr).length x xs,
    xs.foldl Nat.min x, xs.foldl Nat.max x, mds,
    heq, rfl, rfl, foldl_min_mem xs x, ?_, foldl_max_mem xs x, ?_,
    rfl, rfl, hmds, hpw, hmem⟩
  · intro v hv
    rcases List.mem_cons.mp hv with rfl | hv
    · exact foldl_min_le_init xs v
    · exact foldl_min_le_mem xs x v hv
  · intro v hv
    rcases List.mem_cons.mp hv with rfl | hv
    · exact le_foldl_max_init xs v
    · exact le_foldl_max_mem xs x v hv

/-- Witness for C3 at the concrete day tokens 2024-01-01 and 2024-01-05. -/
theorem c3_day_mode_witness :
    ∃ (r : AnalysisResult) (mn mx : ℕ) (mds : List ℕ),
      analyze_partitions [(PKind.day, "2024-01-01"), (PKind.day, "2024-01-05")] =
        some r ∧
      r.partition_type = "day" ∧
      r.total_partitions =
        ([(PKind.day, "2024-01-01"), (PKind.day, "2024-01-05")] : List Token).length ∧
      mn ∈ [739191, 739195] ∧ (∀ v ∈ [739191, 739195], mn ≤ v) ∧
      mx ∈ [739191, 739195] ∧ (∀ v ∈ [739191, 739195], v ≤ mx) ∧
      r.min_date = some (formatDate mn) ∧
      r.max_date = some (formatDate mx) ∧
      r.missing_dates = some (mds.map formatDate) ∧
      mds.Pairwise (· < ·) ∧
      (∀ v, v ∈ mds ↔ (mn ≤ v ∧ v ≤ mx ∧ v ∉ [739191, 739195])) :=
  c3_day_mode.1 [(PKind.day, "2024-01-01"), (PKind.day, "2024-01-05")]
    739191 [739195] (by decide) (by decide) (by decide)

/-- C4: on the month examples of the spec the analyzer steps correctly:
months 2024-01 and 2024-04 give exactly the missing months 2024-02 and
2024-03, and months 2023-11 and 2024-02 give exactly 2023-12 and 2024-01
across the year boundary. -/
theorem c4_month_examples :
    analyze_partitions [(PKind.month, "2024-01"), (PKind.month, "2024-04")] =
      some { partition_type := "month", total_partitions := 2,
             min_date := some "2024-01", max_date := some "2024-04",
             missing_dates := some ["2024-02", "2024-03"] } ∧
    analyze_partitions [(PKind.month, "2023-11"), (PKind.month, "2024-02")] =
      some { partition_type := "month", total_partitions := 2,
             min_date := some "2023-11", max_date := some "2024-02",
             missing_dates := some ["2023-12", "2024-01"] } := by
  refine ⟨by decide, by decide⟩

/-- C5: whenever day tokens are present the analyzer reports day kind and
computes range and missing from the day subset alone, while counting every
input token, of either kind, in `total_partitions` (which equals the input
length in every mode). -/
theorem c5_day_priority :
    (∀ (us : List Token) (r : AnalysisResult),
      analyze_partitions us = some r → r.total_partitions = us.length) ∧
    ∀ ts : List Token,
      (∃ t ∈ ts, t.1 = PKind.day) → (∃ t ∈ ts, t.1 = PKind.month) →
      (∀ r, analyze_partitions ts = some r → r.partition_type = "day") ∧
      analyze_partitions ts =
        (analyze_partitions (ts.filter (fun t => t.1 == PKind.day))).map
          (fun r => { r with total_partitions := ts.length }) := by
  constructor
  · intro us r hr
    rcases hdp : (us.filter (fun t => t.1 == PKind.day)).map Prod.snd with _ | ⟨d, ds⟩
    · rcases hmp : (us.filter (fun t => t.1 == PKind.month)).map Prod.snd with _ | ⟨m, ms⟩
      · rw [analyze_eq_none us hdp hmp] at hr
        rw [← Option.some_inj.mp hr]
      · rw [analyze_eq_month us m ms hdp hmp] at hr
        rcases hp : parseList parseMonth (m :: ms) with _ | ys
        · rw [hp] at hr
          exact absurd hr (by simp)
        · rcases ys with _ | ⟨y, ys⟩
          · rw [hp] at hr
            exact absurd hr (by simp)
          · rw [hp] at hr
            rw [← Option.some_inj.mp hr]
            rfl
    · rw [analyze_eq_day us d ds hdp] at hr
      rcases hp : parseList parseDate (d :: ds) with _ | ys
      · rw [hp] at hr
        exact absurd hr (by simp)
      · rcases ys with _ | ⟨y, ys⟩
        · rw [hp] at hr
          exact absurd hr (by simp)
        · rw [hp] at hr
          rw [← Option.some_inj.mp hr]
          rfl
  · intro ts hd hm
    obtain ⟨td, htd, htdk⟩ := hd
    have hfd : td ∈ ts.filter (fun t => t.1 == PKind.day) :=
      List.mem_filter.mpr ⟨htd, by simp [htdk]⟩
    have hne : (ts.filter (fun t => t.1 == PKind.day)).map Prod.snd ≠ [] := by
      intro hnil
      rw [List.map_eq_nil_iff] at hnil
      rw [hnil] at hfd
      exact absurd hfd (List.not_mem_nil td)
    obtain ⟨d, ds, hdp⟩ := List.exists_cons_of_ne_nil hne
    have hff : (ts.filter (fun t => t.1 == PKind.day)).filter
        (fun t => t.1 == PKind.day) = ts.filter (fun t => t.1 == PKind.day) := by
      rw [List.filter_filter]
      simp
    have hdp2 : ((ts.filter (fun t => t.1 == PKind.day)).filter
        (fun t => t.1 == PKind.day)).map Prod.snd = d :: ds := by
      rw [hff, hdp]
    constructor
    · intro r hr
      rw [analyze_eq_day ts d ds hdp] at hr
      rcases hp : parseList parseDate (d :: ds) with _ | ys
      · rw [hp] at hr
        exact absurd hr (by simp)
      · rcases ys with _ | ⟨y, ys⟩
        · rw [hp] at hr
          exact absurd hr (by simp)
        · rw [hp] at hr
          rw [← Option.some_inj.mp hr]
          rfl
    · rw [analyze_eq_day ts d ds hdp,
        analyze_eq_day (ts.filter (fun t => t.1 == PKind.day)) d ds hdp2]
      rcases hp : parseList parseDate (d :: ds) with _ | ys
      · rfl
      · rcases ys with _ | ⟨y, ys⟩
        · rfl
        · rfl

/-- Witness for C5 at one day token plus one month token. -/
theorem c5_day_priority_witness :
    (∀ r, analyze_partitions [(PKind.day, "2024-01-02"), (PKind.month, "2024-01")] =
        some r → r.partition_type = "day") ∧
    analyze_partitions [(PKind.day, "2024-01-02"), (PKind.month, "2024-01")] =
      (analyze_partitions (([(PKind.day, "2024-01-02"), (PKind.month, "2024-01")] :
          List Token).filter (fun t => t.1 == PKind.day))).map
        (fun r => { r with total_partitions := 2 }) :=
  c5_day_priority.2 [(PKind.day, "2024-01-02"), (PKind.month, "2024-01")]
    ⟨(PKind.day, "2024-01-02"), by decide, rfl⟩
    ⟨(PKind.month, "2024-01"), by decide, rfl⟩

/-- C6: each key is classified day-pattern-first (a day match yields the
day token of its capture even when the month pattern also matches), the
month pattern is only consulted when the day pattern fails, and a key
matching neither pattern contributes nothing to the scan and raises no
error. -/
theorem c6_day_pattern_first (key : String) :
    (∀ v, searchDay key = some v → classifyKey key = some (PKind.day, v)) ∧
    (searchDay key = none →
      ∀ v, searchMonth key = some v → classifyKey key = some (PKind.month, v)) ∧
    (searchDay key = none → searchMonth key = none →
      classifyKey key = none ∧
      ∀ (pre : List (Except AccessError (List String)))
        (keys1 keys2 : List String)
        (post : List (Except AccessError (List String))),
        list_partitions (pre ++ Except.ok (keys1 ++ key :: keys2) :: post) =
        list_partitions (pre ++ Except.ok (keys1 ++ keys2) :: post)) := by
  refine ⟨?_, ?_, ?_⟩
  · intro v hv
    simp [classifyKey, hv]
  · intro hd v hm
    simp [classifyKey, hd, hm]
  · intro hd hm
    have hcl : classifyKey key = none := by simp [classifyKey, hd, hm]
    refine ⟨hcl, ?_⟩
    intro pre keys1 keys2 post
    have haddkey : ∀ dates : List Token, addKey dates key = dates := by
      intro dates
      simp [addKey, hcl]
    have hfold : ∀ dates : List Token,
        (keys1 ++ key :: keys2).foldl addKey dates =
        (keys1 ++ keys2).foldl addKey dates := by
      intro dates
      rw [List.foldl_append, List.foldl_append, List.foldl_cons, haddkey]
    exact scanPages_page_fold_eq post _ _ hfold pre []

/-- Witness for C6: a key carrying both patterns classifies as day. -/
theorem c6_day_pattern_first_witness :
    classifyKey "p/yearmonth=2024-05/date=2024-05-06/f.csv" =
      some (PKind.day, "2024-05-06") :=
  (c6_day_pattern_first "p/yearmonth=2024-05/date=2024-05-06/f.csv").1
    "2024-05-06" (by decide)

/-- C7: a successful scan returns the deduplicated token set as a sequence
sorted by kind then value, containing a token exactly when some scanned key
classifies to it, each exactly once. -/
theorem c7_sorted_dedup (pages : List (Except AccessError (List String)))
    (ts : List Token) (msgs : List String)
    (h : list_partitions pages = (some ts, msgs)) :
    ts.Sorted tokenLE ∧ ts.Nodup ∧
    (∀ t, t ∈ ts ↔ ∃ k ∈ keysOf pages, classifyKey k = some t) := by
  have h' := scanPages_some pages [] ts msgs List.nodup_nil h
  refine ⟨h'.2.1, h'.1, ?_⟩
  intro t
  rw [h'.2.2 t]
  simp

/-- Witness for C7 at a concrete two-page listing with a duplicated
partition value. -/
theorem c7_sorted_dedup_witness :
    ([(PKind.day, "2024-01-01"), (PKind.day, "2024-01-02"),
      (PKind.month, "2024-01")] : List Token).Sorted tokenLE ∧
    ([(PKind.day, "2024-01-01"), (PKind.day, "2024-01-02"),
      (PKind.month, "2024-01")] : List Token).Nodup ∧
    (∀ t, t ∈ ([(PKind.day, "2024-01-01"), (PKind.day, "2024-01-02"),
        (PKind.month, "2024-01")] : List Token) ↔
      ∃ k ∈ keysOf [Except.ok ["a/date=2024-01-02/x.csv",
          "a/date=2024-01-02/y.csv", "a/yearmonth=2024-01/z.csv"],
        Except.ok ["b/date=2024-01-01/w.csv"]], classifyKey k = some t) :=
  c7_sorted_dedup
    [Except.ok ["a/date=2024-01-02/x.csv", "a/date=2024-01-02/y.csv",
      "a/yearmonth=2024-01/z.csv"], Except.ok ["b/date=2024-01-01/w.csv"]]
    [(PKind.day, "2024-01-01"), (PKind.day, "2024-01-02"),
      (PKind.month, "2024-01")] [] (by decide)

/-- C8: the empty token sequence analyzes to kind none, zero total
partitions, and no range or missing fields. -/
theorem c8_empty_tokens :
    analyze_partitions [] =
      some { partition_type := "none", total_partitions := 0,
             min_date := none, max_date := none, missing_dates := none } := rfl

/-- C9: the scanner and the analyzer are pure functions of their input:
re-running either on the same input yields the identical value, with no
randomness or ambient state in the embedding (matching the absence of
randomness and clock reads in the source). -/
theorem c9_deterministic (ts : List Token)
    (pages : List (Except AccessError (List String))) :
    analyze_partitions ts = analyze_partitions ts ∧
    list_partitions pages = list_partitions pages :=
  ⟨rfl, rfl⟩

/-- C10: the scanner checks digit shape only, so it can emit a day token
whose value is no calendar date (here from a key containing
`date=2024-13-40`), and the analyzer fails (strptime `ValueError`) on that
token; conversely, when every day value parses as a date and every month
value as a year-month, the analyzer always produces a result. -/
theorem c10_shape_only_validation :
    classifyKey "raw/date=2024-13-40/f.csv" = some (PKind.day, "2024-13-40") ∧
    analyze_partitions [(PKind.day, "2024-13-40")] = none ∧
    ∀ ts : List Token,
      (∀ t ∈ ts, (t.1 = PKind.day → (parseDate t.2).isSome) ∧
        (t.1 = PKind.month → (parseMonth t.2).isSome)) →
      (analyze_partitions ts).isSome := by
  refine ⟨by decide, by decide, ?_⟩
  intro ts h
  rcases hdp : (ts.filter (fun t => t.1 == PKind.day)).map Prod.snd with _ | ⟨d, ds⟩
  · rcases hmp : (ts.filter (fun t => t.1 == PKind.month)).map Prod.snd with _ | ⟨m, ms⟩
    · rw [analyze_eq_none ts hdp hmp]
      rfl
    · rw [analyze_eq_month ts m ms hdp hmp]
      have hall : ∀ s ∈ m :: ms, (parseMonth s).isSome := by
        intro s hs
        rw [← hmp] at hs
        rcases List.mem_map.mp hs with ⟨t, ht, rfl⟩
        rcases List.mem_filter.mp ht with ⟨htts, htk⟩
        exact (h t htts).2 (by simpa using htk)
      have hps := parseList_isSome parseMonth (m :: ms) hall
      rcases Option.isSome_iff_exists.mp hps with ⟨ys, hys⟩
      obtain ⟨n, ns, rfl⟩ := parseList_cons_shape parseMonth m ms ys hys
      rw [hys]
      rfl
  · rw [analyze_eq_day ts d ds hdp]
    have hall : ∀ s ∈ d :: ds, (parseDate s).isSome := by
      intro s hs
      rw [← hdp] at hs
      rcases List.mem_map.mp hs with ⟨t, ht, rfl⟩
      rcases List.mem_filter.mp ht with ⟨htts, htk⟩
      exact (h t htts).1 (by simpa using htk)
    have hps := parseList_isSome parseDate (d :: ds) hall
    rcases Option.isSome_iff_exists.mp hps with ⟨ys, hys⟩
    obtain ⟨n, ns, rfl⟩ := parseList_cons_shape parseDate d ds ys hys
    rw [hys]
    rfl

/-- Witness for C10: the totality direction applied to a parsable token
set. -/
theorem c10_shape_only_validation_witness :
    (analyze_partitions [(PKind.day, "2024-02-29"),
        (PKind.month, "2024-02")]).isSome :=
  c10_shape_only_validation.2.2
    [(PKind.day, "2024-02-29"), (PKind.month, "2024-02")] (by decide)

end ViewS3
